import Mathlib

/-!
Verification of the `rag_basic` repository (multimodal RAG pipeline).

This file gives a shallow embedding, in Lean 4, of the data model and the
operations of the repository's core pipeline:

* `step2.py`: Korean text normalisation (`preprocess_korean_text`),
  sentence-based chunking (`chunk_text`), per-chunk embedding generation with
  ordered model fallback (`create_voyage_multimodal_embeddings`), and saving
  to the vector index (`save_to_qdrant`, `search_similar_documents`);
* `v_embed.py`: interleaved multimodal sequence construction
  (`create_multimodal_sequences`) and its own `save_to_qdrant`;
* `step3.py`: the retrieve-then-generate workflow (`retrieve_documents`,
  `generate_answer`) and the interactive question loop (`interactive_qa`).

Python strings are modelled as `List Char`, machine floats as `ℚ`
(exact arithmetic; the aggregation facts proved here are about the
element-wise mean itself), external services (embedding model, vector index
search, language model, standard input) as explicitly passed functions.
All definitions are executable.
-/

namespace Rag

/-! ## Python character classes and string primitives -/

/-- Whitespace characters recognised by Python's `str.strip` / `\s`
(the ASCII repertoire, which is what the repository's data uses). -/
def isWS (c : Char) : Bool :=
  c = ' ' || c = '\t' || c = '\n' || c = '\r' || c = '\x0b' || c = '\x0c'

/-- The sentence-terminal punctuation class `[.!?。！？]` of
`chunk_text` in `step2.py` line 36. -/
def isTerminator (c : Char) : Bool :=
  c = '.' || c = '!' || c = '?' || c = '。' || c = '！' || c = '？'

/-- A character that is neither whitespace nor sentence-terminal punctuation:
the content that chunking is expected to preserve. -/
def keepChar (c : Char) : Bool := !(isWS c || isTerminator c)

/-- Python `str.strip()`: drop whitespace from both ends. -/
def pyStrip (s : List Char) : List Char :=
  (s.rdropWhile isWS).dropWhile isWS

/-- Python `str.lower()` restricted to ASCII letters (the repository's
termination tokens are ASCII or Hangul, which `lower` leaves unchanged). -/
def pyLower (s : List Char) : List Char :=
  s.map fun c => if 'A' ≤ c && c ≤ 'Z' then Char.ofNat (c.toNat + 32) else c

/-- Python `re.split` with a single-character class: cut the string at every
character satisfying `p`, keeping (possibly empty) parts between cuts. -/
def pySplit (p : Char → Bool) : List Char → List (List Char)
  | [] => [[]]
  | c :: rest =>
    match pySplit p rest with
    | [] => [[]]
    | s :: ss => if p c then [] :: s :: ss else (c :: s) :: ss

/-- Scanner for `re.sub(r'\s+', ' ', t)`: `in_run` records whether the
previous character was whitespace (so the current run's space was already
emitted). -/
def collapseWSAux (in_run : Bool) : List Char → List Char
  | [] => []
  | c :: rest =>
    if isWS c then
      if in_run then collapseWSAux true rest else ' ' :: collapseWSAux true rest
    else c :: collapseWSAux false rest

/-- `re.sub(r'\s+', ' ', t)`: replace every maximal whitespace run by a
single space (no stripping of the ends). -/
def collapseWS (l : List Char) : List Char := collapseWSAux false l

/-! ## Chunker (`chunk_text`, `step2.py` lines 30–54) -/

/-- `if current_chunk: chunks.append(current_chunk.strip())`
(the flush at `step2.py` lines 47–48 and 51–52). -/
def flushChunks (acc : List (List Char) × List Char) : List (List Char) :=
  if acc.2 ≠ [] then acc.1 ++ [pyStrip acc.2] else acc.1

/-- One iteration of the sentence loop of `chunk_text` (lines 39–49):
the accumulator is the pair (flushed chunks, current buffer). -/
def chunkStep (max_length : Nat) (acc : List (List Char) × List Char)
    (sentence0 : List Char) : List (List Char) × List Char :=
  if pyStrip sentence0 = [] then acc
  else if acc.2.length + (pyStrip sentence0).length < max_length then
    (acc.1, acc.2 ++ pyStrip sentence0 ++ ['.', ' '])
  else
    (flushChunks acc, pyStrip sentence0 ++ ['.', ' '])

/-- `chunk_text(text, max_length)` of `step2.py` lines 30–54. -/
def chunk_text (text : List Char) (max_length : Nat := 1000) : List (List Char) :=
  if text.length ≤ max_length then [text]
  else
    let acc := (pySplit isTerminator text).foldl (chunkStep max_length) ([], [])
    let chunks := flushChunks acc
    if chunks ≠ [] then chunks else [text]

/-! ## Text Normalizer (`preprocess_korean_text`, `step2.py` lines 20–28) -/

/-- Python's `\w` word-character class, restricted to the character
repertoire this repository processes: ASCII alphanumerics, underscore, and
Hangul syllables (U+AC00–U+D7A3; the source's pattern `[^\w\s가-힣]` names
the same Hangul range explicitly). -/
def isWordChar (c : Char) : Bool :=
  c.isAlphanum || c = '_' || (0xAC00 ≤ c.toNat && c.toNat ≤ 0xD7A3)

/-- `preprocess_korean_text(text)` of `step2.py` lines 20–28:
collapse whitespace on the stripped text, replace every character that is
not word/whitespace/Hangul by a space, then collapse whitespace again. -/
def preprocess_korean_text (text : List Char) : List Char :=
  collapseWS
    ((collapseWS (pyStrip text)).map fun c =>
      if isWordChar c || isWS c then c else ' ')

/-! ## Data model: segments, sequences, embeddings -/

/-- One element of a `multimodal_content` list: either
`{"type": "text", "content": ...}` or
`{"type": "image", "content": ..., "image_name": ..., "caption": ...}`. -/
inductive SegItem where
  | text (content : List Char)
  | image (content : List Char) (image_name : String) (caption : List Char)
deriving DecidableEq

def is_image_seg : SegItem → Bool
  | .image _ _ _ => true
  | .text _ => false

/-- A per-document multimodal sequence (`sequences` entries built by
`create_multimodal_sequences`). -/
structure MSequence where
  pdf_name : String
  multimodal_content : List SegItem
deriving DecidableEq

/-! ## Sequence Builder (`create_multimodal_sequences`, `v_embed.py` lines 59–140) -/

/-- An image asset on disk: its file name and, when `open()` succeeds, its
base64-encoded bytes (`none` models a load failure, which the source catches
and skips). -/
structure ImageAsset where
  name : String
  data : Option (List Char)
deriving DecidableEq

/-- The literal image-reference marker searched for by
`re.finditer(r'<!-- image -->', md_content)` in `v_embed.py` line 77. -/
def image_marker : List Char := "<!-- image -->".data

/-- Leftmost non-overlapping occurrences of the literal pattern `pat` in
the text, as (start, end) index pairs: the semantics of `re.finditer` for a
literal pattern. `pos` is the index of the head of the remaining text and
`skip` counts positions still covered by the previous match. -/
def find_markers_aux (pat : List Char) : List Char → Nat → Nat → List (Nat × Nat)
  | [], _, _ => []
  | c :: rest, pos, skip =>
    match skip with
    | n + 1 => find_markers_aux pat rest (pos + 1) n
    | 0 =>
      if pat.isPrefixOf (c :: rest) then
        (pos, pos + pat.length) :: find_markers_aux pat rest (pos + 1) (pat.length - 1)
      else find_markers_aux pat rest (pos + 1) 0

def find_markers (pat : List Char) (text : List Char) : List (Nat × Nat) :=
  find_markers_aux pat text 0 0

/-- `caption_map.get(image_name, {}).get('caption', '')` where `caption_map`
is the dict comprehension of `v_embed.py` line 74 (a later entry with the
same image name overrides an earlier one). -/
def caption_map_get (captions : List (String × List Char)) (name : String) : List Char :=
  match captions.reverse.find? (fun kv => kv.1 = name) with
  | some kv => kv.2
  | none => []

/-- `f"data:image/png;base64,{img_data}"`. -/
def data_url (d : List Char) : List Char := "data:image/png;base64,".data ++ d

/-- The marker loop of `create_multimodal_sequences` (`v_embed.py` lines
81–116): `i` is the running marker index, `pos` the cursor `current_pos`;
after the last marker the trailing text is appended when non-empty. -/
def build_segments (md : List Char) (image_files : List ImageAsset)
    (captions : List (String × List Char)) :
    List (Nat × Nat) → Nat → Nat → List SegItem
  | [], _, pos =>
    if pyStrip (md.drop pos) ≠ [] then [SegItem.text (pyStrip (md.drop pos))] else []
  | (s, e) :: rest, i, pos =>
    (if pyStrip ((md.drop pos).take (s - pos)) ≠ [] then
        [SegItem.text (pyStrip ((md.drop pos).take (s - pos)))]
      else [])
    ++ (match image_files[i]? with
        | some asset =>
          match asset.data with
          | some d =>
            [SegItem.image (data_url d) asset.name (caption_map_get captions asset.name)]
          | none => []
        | none => [])
    ++ build_segments md image_files captions rest (i + 1) e

/-- Per-document body of `create_multimodal_sequences` (`v_embed.py` lines
77–138): interleave text slices and images when markers exist, otherwise a
single text segment holding the whole markdown. -/
def create_multimodal_sequences_doc (md : List Char) (image_files : List ImageAsset)
    (captions : List (String × List Char)) : List SegItem :=
  if find_markers image_marker md = [] then [SegItem.text md]
  else build_segments md image_files captions (find_markers image_marker md) 0 0

/-! ## Embedding Generator (`create_voyage_multimodal_embeddings`, `step2.py` lines 194–286) -/

/-- The fixed model priority list of `step2.py` line 241 (also line 377). -/
def models_to_try : List String := ["voyage-large-2", "voyage-02", "voyage-01"]

/-- The `for model_name in models_to_try: try ... break except ... continue`
pattern (lines 243–261): try candidates in order, return the first success
together with the model that produced it. -/
def firstSuccess {V : Type} (attempt : String → Option V) : List String → Option (V × String)
  | [] => none
  | m :: ms =>
    match attempt m with
    | some v => some (v, m)
    | none => firstSuccess attempt ms

/-- One entry of `chunk_embeddings` (lines 249–254). -/
structure ChunkEmbedding where
  chunk_index : Nat
  text : List Char
  embedding : List ℚ
  model_used : String
deriving DecidableEq

/-- The text extraction of lines 213–226: a text item contributes its
normalized content when non-empty; an image item contributes
`[이미지: caption]` when it has a caption, else the bare placeholder. -/
def segment_text_content : SegItem → Option (List Char)
  | .text content =>
    if preprocess_korean_text content = [] then none
    else some (preprocess_korean_text content)
  | .image _ _ caption =>
    if caption ≠ [] then
      some ("[이미지: ".data ++ preprocess_korean_text caption ++ "]".data)
    else some "[이미지]".data

/-- `combined_text = " ".join(text_content)` (line 229). -/
def combined_text (seq : MSequence) : List Char :=
  List.intercalate [' '] (seq.multimodal_content.filterMap segment_text_content)

/-- The per-chunk loop of lines 237–264: each chunk, with its index, gets
the first successful model's vector; a chunk for which every candidate
fails contributes nothing. `attempt c m` models
`voyage_client.embed(texts=[c], model=m)`, `none` being a raised exception. -/
def embedChunks (attempt : List Char → String → Option (List ℚ))
    (chunks : List (List Char)) : List ChunkEmbedding :=
  chunks.enum.filterMap fun jc =>
    (firstSuccess (attempt jc.2) models_to_try).map fun vm =>
      { chunk_index := jc.1, text := jc.2, embedding := vm.1, model_used := vm.2 }

/-- Componentwise sum of a batch of vectors (the summation inside
`np.mean(..., axis=0)`). -/
def vecSum : List (List ℚ) → List ℚ
  | [] => []
  | [v] => v
  | v :: w :: rest => List.zipWith (· + ·) v (vecSum (w :: rest))

/-- `np.mean(vs, axis=0)` on a rectangular batch: componentwise sum divided
by the number of rows. -/
def np_mean_axis0 (vs : List (List ℚ)) : List ℚ :=
  (vecSum vs).map fun x => x / (vs.length : ℚ)

/-- One entry of the `embeddings` list built at lines 271–277. -/
structure DocumentEmbedding where
  pdf_name : String
  multimodal_content : List SegItem
  embedding : List ℚ
  text : List Char
  chunks : List ChunkEmbedding
deriving DecidableEq

/-- The per-document body of `create_voyage_multimodal_embeddings`
(lines 208–284): chunk the combined text at max length 1500, embed each
chunk with model fallback, and aggregate by mean; a document none of whose
chunks embed is dropped (`none`). -/
def document_embedding (attempt : List Char → String → Option (List ℚ))
    (seq : MSequence) : Option DocumentEmbedding :=
  let ces := embedChunks attempt (chunk_text (combined_text seq) 1500)
  if ces = [] then none
  else
    some { pdf_name := seq.pdf_name
           multimodal_content := seq.multimodal_content
           embedding := np_mean_axis0 (ces.map (·.embedding))
           text := combined_text seq
           chunks := ces }

/-- `create_voyage_multimodal_embeddings(sequences, voyage_client)`:
the batch keeps exactly the documents that produced an embedding. -/
def create_voyage_multimodal_embeddings (attempt : List Char → String → Option (List ℚ))
    (sequences : List MSequence) : List DocumentEmbedding :=
  sequences.filterMap (document_embedding attempt)

/-! ## Vector Index Manager (`save_to_qdrant`, `step2.py` lines 288–361 and
`v_embed.py` lines 194–251) -/

/-- One element of the `images` payload list (`step2.py` lines 333–337). -/
structure ImageInfo where
  image_name : String
  caption : List Char
  image_path : List Char
deriving DecidableEq

/-- The payload attached by `step2.py` lines 345–351. -/
structure Payload where
  pdf_name : String
  text : List Char
  content_count : Nat
  image_count : Nat
  images : List ImageInfo
deriving DecidableEq

/-- A stored point: vector plus payload. (The point id is a fresh
`uuid.uuid4()`, i.e. external randomness; it plays no role in any claim and
is not modelled.) -/
structure PointStruct where
  vector : List ℚ
  payload : Payload
deriving DecidableEq

/-- `content[:100] + '...' if len(content) > 100 else content`
(`step2.py` line 336). -/
def truncate_path (content : List Char) : List Char :=
  if 100 < content.length then content.take 100 ++ "...".data else content

/-- The point construction of `step2.py` lines 324–353. -/
def step2_point (emb : DocumentEmbedding) : PointStruct :=
  { vector := emb.embedding
    payload :=
      { pdf_name := emb.pdf_name
        text := List.intercalate [' ']
          (emb.multimodal_content.map fun it =>
            match it with
            | .text c => c
            | .image _ _ caption => "[이미지: ".data ++ caption ++ "]".data)
        content_count := emb.multimodal_content.length
        image_count := (emb.multimodal_content.filter is_image_seg).length
        images := emb.multimodal_content.filterMap fun it =>
          match it with
          | .image content name caption =>
            some { image_name := name, caption := caption,
                   image_path := truncate_path content }
          | .text _ => none } }

/-- The state of the external Qdrant service: named collections, each with
a declared vector dimensionality and its stored points. -/
structure QdrantState (P : Type) where
  collections : List (String × Nat × List P)
deriving DecidableEq

/-- `delete_collection` wrapped in `try/except: pass`: removing an absent
collection is not an error. -/
def delete_collection {P : Type} (st : QdrantState P) (name : String) : QdrantState P :=
  ⟨st.collections.filter fun kv => kv.1 ≠ name⟩

/-- `create_collection(collection_name, vectors_config=VectorParams(size, COSINE))`:
a fresh empty collection with the given declared dimensionality. -/
def create_collection {P : Type} (st : QdrantState P) (name : String) (size : Nat) :
    QdrantState P :=
  ⟨(name, size, ([] : List P)) :: (delete_collection st name).collections⟩

/-- Modelled from the spec: the Qdrant service itself is an external
collaborator, not code of this repository. Per §3/§4.5 of the spec, a point
whose vector length differs from the collection's declared dimensionality is
rejected — the write fails closed and stores nothing. -/
def qdrant_upsert {P : Type} (vector_of : P → List ℚ) (st : QdrantState P)
    (name : String) (pts : List P) : Except String (QdrantState P) :=
  match st.collections.find? (fun kv => kv.1 = name) with
  | none => .error "collection not found"
  | some kv =>
    if pts.all (fun p => (vector_of p).length = kv.2.1) then
      .ok ⟨st.collections.map fun kv2 =>
        if kv2.1 = name then (kv2.1, kv2.2.1, kv2.2.2 ++ pts) else kv2⟩
    else .error "vector dimension mismatch"

/-- `vector_size` of `step2.py` lines 303–308: the first embedding's length,
or the hard-coded 1536 default when the batch is empty. -/
def step2_vector_size (embeddings : List DocumentEmbedding) : Nat :=
  match embeddings with
  | [] => 1536
  | e :: _ => e.embedding.length

/-- `save_to_qdrant` of `step2.py` lines 288–361: delete any old collection,
create one sized from the first embedding, and upsert every point. Returns
the declared dimensionality together with the outcome. -/
def step2_save_to_qdrant (st0 : QdrantState PointStruct)
    (embeddings : List DocumentEmbedding)
    (collection_name : String := "voyage-multimodal-docs") :
    Nat × Except String (QdrantState PointStruct) :=
  let st1 := delete_collection st0 collection_name
  let size := step2_vector_size embeddings
  let st2 := create_collection st1 collection_name size
  (size, qdrant_upsert PointStruct.vector st2 collection_name (embeddings.map step2_point))

/-- One entry of the `embeddings` list of `v_embed.py` lines 177–181. -/
structure VDocumentEmbedding where
  pdf_name : String
  multimodal_content : List SegItem
  embedding : List ℚ
deriving DecidableEq

/-- The payload attached by `v_embed.py` lines 237–241. -/
structure VPayload where
  pdf_name : String
  text : List Char
  content_count : Nat
deriving DecidableEq

structure VPointStruct where
  vector : List ℚ
  payload : VPayload
deriving DecidableEq

/-- The point construction of `v_embed.py` lines 223–243. An image item's
dict always carries a `caption` key (set by the sequence builder, possibly
empty), so `item.get('caption', '[IMAGE]')` returns that caption. -/
def v_embed_point (emb : VDocumentEmbedding) : VPointStruct :=
  { vector := emb.embedding
    payload :=
      { pdf_name := emb.pdf_name
        text := List.intercalate [' ']
          (emb.multimodal_content.map fun it =>
            match it with
            | .text c => c
            | .image _ _ caption => caption)
        content_count := emb.multimodal_content.length } }

/-- `save_to_qdrant` of `v_embed.py` lines 194–251: the declared
dimensionality is the hard-coded constant 1024 (line 213), independent of
the ingested vectors. -/
def v_embed_save_to_qdrant (st0 : QdrantState VPointStruct)
    (embeddings : List VDocumentEmbedding)
    (collection_name : String := "voyage-multimodal-docs") :
    Nat × Except String (QdrantState VPointStruct) :=
  let st1 := delete_collection st0 collection_name
  let st2 := create_collection st1 collection_name 1024
  (1024, qdrant_upsert VPointStruct.vector st2 collection_name (embeddings.map v_embed_point))

/-- `search_similar_documents` of `step2.py` lines 363–431: preprocess the
query, embed it with the same ordered model fallback applied to the whole
query as a single chunk, then search; embedding failure for every model
yields `[]`. `qdrant_search v limit` models
`qdrant_client.search(collection_name, query_vector=v, limit=limit)`. -/
def search_similar_documents {Hit : Type}
    (embed_attempt : List Char → String → Option (List ℚ))
    (qdrant_search : List ℚ → Nat → List Hit)
    (query_text : List Char) (limit : Nat := 5) : List Hit :=
  match firstSuccess (embed_attempt (preprocess_korean_text query_text)) models_to_try with
  | none => []
  | some vm => qdrant_search vm.1 limit

/-! ## Retrieval-Generation Workflow (`step3.py`) -/

/-- The `RAGState` TypedDict of `step3.py` lines 147–150. Retrieved
documents are represented by their page content. -/
structure RAGState where
  question : List Char
  documents : List (List Char)
  answer : List Char
deriving DecidableEq

/-- `create_retriever_from_existing_data` (`step3.py` lines 95–124):
`qdrant.as_retriever(search_kwargs={"k": 10})` — the vector store (which
embeds the query with OpenAI `text-embedding-3-small` and searches) is the
external collaborator `vector_store`; the retriever fixes top-K at 10. -/
def create_retriever_from_existing_data
    (vector_store : List Char → Nat → List (List Char)) :
    List Char → List (List Char) :=
  fun query => vector_store query 10

/-- `retrieve_documents` (`step3.py` lines 172–183): the question string is
passed to `retriever.invoke` as is. -/
def retrieve_documents (retriever : List Char → List (List Char))
    (state : RAGState) : RAGState :=
  { question := state.question
    documents := retriever state.question
    answer := [] }

/-- `generate_answer` (`step3.py` lines 185–209): context is the retrieved
documents' text joined by blank lines; `llm context question` models the
prompt-template/LLM/parser chain invocation. -/
def generate_answer (llm : List Char → List Char → List Char)
    (state : RAGState) : RAGState :=
  { question := state.question
    documents := state.documents
    answer := llm (List.intercalate "\n\n".data state.documents) state.question }

/-- The compiled two-node LangGraph workflow (`step3.py` lines 211–228):
retrieve, then generate, starting from the initial state used at line 252. -/
def rag_workflow (retriever : List Char → List (List Char))
    (llm : List Char → List Char → List Char) (question : List Char) : RAGState :=
  generate_answer llm
    (retrieve_documents retriever { question := question, documents := [], answer := [] })

/-! ## Interactive loop (`interactive_qa`, `step3.py` lines 230–263) -/

/-- One event read from standard input: a line, or a `KeyboardInterrupt`
delivered at the prompt. -/
inductive InputEvent where
  | line (s : List Char)
  | interrupt
deriving DecidableEq

/-- User-visible outcomes of one loop iteration. -/
inductive QAOutput where
  | answer (text : List Char) (doc_count : Nat)
  | error_report (msg : List Char)
  | goodbye
deriving DecidableEq

/-- `['quit', 'exit', '종료']` (`step3.py` line 243). -/
def termination_tokens : List (List Char) := ["quit".data, "exit".data, "종료".data]

def isTerminationEvent : InputEvent → Bool
  | .interrupt => true
  | .line s => decide (pyLower (pyStrip s) ∈ termination_tokens)

/-- `interactive_qa(rag_app)` (`step3.py` lines 230–263) run against a
finite schedule of input events. `rag_app q` models
`rag_app.invoke({"question": q, "documents": [], "answer": ""})`, with
`.error` an exception raised while answering. Returns the printed outcomes
and whether the loop exited (`break`) within the schedule. -/
def interactive_qa (rag_app : List Char → Except (List Char) RAGState) :
    List InputEvent → List QAOutput × Bool
  | [] => ([], false)
  | .interrupt :: _ => ([.goodbye], true)
  | .line s :: rest =>
    if pyLower (pyStrip s) ∈ termination_tokens then ([.goodbye], true)
    else if pyStrip s = [] then interactive_qa rag_app rest
    else
      match rag_app (pyStrip s) with
      | .ok result =>
        (.answer result.answer result.documents.length :: (interactive_qa rag_app rest).1,
          (interactive_qa rag_app rest).2)
      | .error e =>
        (.error_report e :: (interactive_qa rag_app rest).1, (interactive_qa rag_app rest).2)

/-! ## Lemmas about the string primitives -/

theorem filter_dropWhile_of_imp {q p : Char → Bool}
    (h : ∀ c, p c = true → q c = false) :
    ∀ l : List Char, (l.dropWhile p).filter q = l.filter q := by
  intro l
  induction l with
  | nil => rfl
  | cons c rest ih =>
    rw [List.dropWhile_cons]
    by_cases hc : p c = true
    · rw [if_pos hc, ih, List.filter_cons, h c hc]
      simp
    · rw [if_neg hc]

theorem filter_rdropWhile_of_imp {q p : Char → Bool}
    (h : ∀ c, p c = true → q c = false) (l : List Char) :
    (l.rdropWhile p).filter q = l.filter q := by
  rw [List.rdropWhile, List.filter_reverse, filter_dropWhile_of_imp h,
    ← List.filter_reverse, List.reverse_reverse]

theorem ws_not_keepChar : ∀ c, isWS c = true → keepChar c = false := by
  intro c hc
  simp [keepChar, hc]

theorem filter_keepChar_pyStrip (s : List Char) :
    (pyStrip s).filter keepChar = s.filter keepChar := by
  rw [pyStrip, filter_dropWhile_of_imp ws_not_keepChar,
    filter_rdropWhile_of_imp ws_not_keepChar]

theorem filter_keepChar_nil_of_pyStrip_nil {s : List Char} (h : pyStrip s = []) :
    s.filter keepChar = [] := by
  rw [← filter_keepChar_pyStrip, h]
  rfl

theorem dropWhile_pyStrip (s : List Char) :
    (pyStrip s).dropWhile isWS = pyStrip s := by
  rw [pyStrip]
  exact List.dropWhile_idempotent _ _

theorem dropWhile_append_of_fixed {p : Char → Bool} {u : List Char}
    (hne : u ≠ []) (hdw : u.dropWhile p = u) (v : List Char) :
    (u ++ v).dropWhile p = u ++ v := by
  rw [List.dropWhile_append, hdw]
  rw [if_neg]
  simp [List.isEmpty_iff, hne]

theorem pySplit_ne_nil (p : Char → Bool) (l : List Char) : pySplit p l ≠ [] := by
  cases l with
  | nil => simp [pySplit]
  | cons c rest =>
    rw [pySplit]
    cases h : pySplit p rest with
    | nil => simp
    | cons s ss =>
      by_cases hc : p c = true <;> simp [hc]

theorem flatten_pySplit (p : Char → Bool) (l : List Char) :
    (pySplit p l).flatten = l.filter (fun c => !p c) := by
  induction l with
  | nil => rfl
  | cons c rest ih =>
    cases h : pySplit p rest with
    | nil => exact absurd h (pySplit_ne_nil p rest)
    | cons s ss =>
      have hred : pySplit p (c :: rest)
          = if p c = true then [] :: s :: ss else (c :: s) :: ss := by
        rw [pySplit, h]
      rw [h] at ih
      rw [hred]
      by_cases hc : p c = true
      · rw [if_pos hc, List.filter_cons]
        simp only [hc, Bool.not_true, List.flatten_cons, List.nil_append]
        rw [← List.flatten_cons, ih]
        simp
      · rw [if_neg hc, List.filter_cons]
        have hc' : (!p c) = true := by simp [Bool.not_eq_true] at hc; simp [hc]
        simp only [hc', if_true]
        simp only [List.flatten_cons, List.cons_append]
        rw [← List.flatten_cons, ih]

theorem pySplit_of_no_sep {p : Char → Bool} :
    ∀ {l : List Char}, (∀ c ∈ l, p c = false) → pySplit p l = [l] := by
  intro l
  induction l with
  | nil => intro _; rfl
  | cons c rest ih =>
    intro h
    rw [pySplit, ih fun c hc => h c (List.mem_cons_of_mem _ hc)]
    simp [h c (List.mem_cons_self c rest)]

theorem filter_keepChar_flatten_pySplit (text : List Char) :
    ((pySplit isTerminator text).flatten).filter keepChar = text.filter keepChar := by
  rw [flatten_pySplit, List.filter_filter]
  refine List.filter_congr fun c _ => ?_
  rw [keepChar]
  cases h : isTerminator c <;> simp [h]

/-! ## Lemmas about the chunker -/

theorem flushChunks_flatten_filter (chunks : List (List Char)) (current : List Char) :
    ((flushChunks (chunks, current)).flatten).filter keepChar
      = (chunks.flatten).filter keepChar ++ current.filter keepChar := by
  rw [flushChunks]
  by_cases h : current = []
  · simp [h]
  · simp only [h, ne_eq, not_false_iff, if_true, List.flatten_append,
      List.filter_append, List.flatten_cons, List.flatten_nil, List.append_nil]
    rw [filter_keepChar_pyStrip]

theorem chunk_loop_filter (max_length : Nat) :
    ∀ (sentences : List (List Char)) (chunks : List (List Char)) (current : List Char),
    ((flushChunks (sentences.foldl (chunkStep max_length) (chunks, current))).flatten).filter keepChar
      = (chunks.flatten).filter keepChar ++ current.filter keepChar
          ++ (sentences.flatten).filter keepChar := by
  intro sentences
  induction sentences with
  | nil =>
    intro chunks current
    simp only [List.foldl_nil, List.flatten_nil, List.filter_nil, List.append_nil]
    exact flushChunks_flatten_filter chunks current
  | cons s rest ih =>
    intro chunks current
    rw [List.foldl_cons]
    have hsep : List.filter keepChar ['.', ' '] = [] := by decide
    by_cases h1 : pyStrip s = []
    · rw [show chunkStep max_length (chunks, current) s = (chunks, current) by
        rw [chunkStep, if_pos h1]]
      rw [ih]
      simp [filter_keepChar_nil_of_pyStrip_nil h1]
    · by_cases h2 : current.length + (pyStrip s).length < max_length
      · rw [show chunkStep max_length (chunks, current) s
            = (chunks, current ++ pyStrip s ++ ['.', ' ']) by
          rw [chunkStep, if_neg h1, if_pos h2]]
        rw [ih]
        simp only [List.filter_append, hsep, List.append_nil, List.flatten_cons]
        rw [filter_keepChar_pyStrip]
        simp [List.append_assoc]
      · rw [show chunkStep max_length (chunks, current) s
            = (flushChunks (chunks, current), pyStrip s ++ ['.', ' ']) by
          rw [chunkStep, if_neg h1, if_neg h2]]
        rw [ih, flushChunks_flatten_filter]
        simp only [List.filter_append, hsep, List.append_nil, List.flatten_cons]
        rw [filter_keepChar_pyStrip]
        simp [List.append_assoc]

theorem pyStrip_append_sep {u : List Char} (hne : u ≠ [])
    (hdw : u.dropWhile isWS = u) :
    pyStrip (u ++ ['.', ' ']) = u ++ ['.'] := by
  rw [pyStrip, show u ++ ['.', ' '] = (u ++ ['.']) ++ [' '] by simp,
    List.rdropWhile_concat_pos isWS (u ++ ['.']) ' ' (by decide),
    List.rdropWhile_concat_neg isWS u '.' (by decide)]
  exact dropWhile_append_of_fixed hne hdw ['.']

theorem pyStrip_append_space {u : List Char}
    (hdw : u.dropWhile isWS = u) (hrdw : u.rdropWhile isWS = u) :
    pyStrip (u ++ [' ']) = u := by
  rw [pyStrip, List.rdropWhile_concat_pos isWS u ' ' (by decide), hrdw, hdw]

/-- C1, degenerate direction: with no sentence-terminal punctuation in an
over-long text, the single sentence is the whole text, and the loop turns
it into one chunk. -/
theorem chunk_text_no_terminator (text : List Char) (max_length : Nat)
    (hlen : max_length < text.length)
    (hterm : ∀ c ∈ text, isTerminator c = false) :
    chunk_text text max_length
      = if pyStrip text = [] then [text] else [pyStrip text ++ ['.']] := by
  have hsplit : pySplit isTerminator text = [text] := pySplit_of_no_sep hterm
  rw [chunk_text, if_neg (by omega)]
  simp only [hsplit, List.foldl_cons, List.foldl_nil]
  by_cases h1 : pyStrip text = []
  · rw [show chunkStep max_length ([], []) text = ([], []) by
      rw [chunkStep, if_pos h1]]
    simp [flushChunks, h1]
  · have hstep : chunkStep max_length ([], []) text = ([], pyStrip text ++ ['.', ' ']) := by
      rw [chunkStep, if_neg h1]
      by_cases h2 : List.length ([] : List Char) + (pyStrip text).length < max_length
      · rw [if_pos h2]
        simp
      · rw [if_neg h2]
        simp [flushChunks]
    rw [hstep]
    have hcur : pyStrip (pyStrip text ++ ['.', ' ']) = pyStrip text ++ ['.'] :=
      pyStrip_append_sep h1 (dropWhile_pyStrip text)
    have hflush : flushChunks ([], pyStrip text ++ ['.', ' ']) = [pyStrip text ++ ['.']] := by
      rw [flushChunks, if_pos (by simp)]
      rw [hcur]
      rfl
    rw [hflush, if_neg h1, if_pos (by simp)]

/-- C1 (amended): (a) the concatenation of the returned chunks preserves,
in order, every character of the input that is neither whitespace nor
sentence-terminal punctuation (the terminal punctuation itself is rewritten
to `.` and whitespace may be reflowed); (b) when the text exceeds the max
length, contains no sentence-terminal punctuation, and is not
whitespace-only, the result is a single chunk equal to the stripped
original text with a `.` appended — not the original text verbatim. -/
theorem chunk_text_content_preservation :
    (∀ (text : List Char) (max_length : Nat),
      ((chunk_text text max_length).flatten).filter keepChar = text.filter keepChar)
    ∧ (∀ (text : List Char) (max_length : Nat),
        max_length < text.length →
        (∀ c ∈ text, isTerminator c = false) →
        pyStrip text ≠ [] →
        chunk_text text max_length = [pyStrip text ++ ['.']]) := by
  constructor
  · intro text max_length
    rw [chunk_text]
    by_cases hlen : text.length ≤ max_length
    · rw [if_pos hlen]
      simp
    · rw [if_neg hlen]
      simp only []
      by_cases hch : flushChunks ((pySplit isTerminator text).foldl (chunkStep max_length) ([], [])) = []
      · rw [if_neg (by simp [hch])]
        simp
      · rw [if_pos (by simp [hch])]
        rw [chunk_loop_filter max_length (pySplit isTerminator text) [] []]
        simp only [List.flatten_nil, List.filter_nil, List.nil_append]
        exact filter_keepChar_flatten_pySplit text
  · intro text max_length hlen hterm hstrip
    rw [chunk_text_no_terminator text max_length hlen hterm, if_neg hstrip]

/-- Witness for C1 (amended), instantiating the degenerate direction:
an 11-character text with no sentence punctuation, max length 10. -/
theorem chunk_text_content_preservation_witness :
    chunk_text "abcdefghijk".data 10 = [pyStrip "abcdefghijk".data ++ ['.']] :=
  chunk_text_content_preservation.2 "abcdefghijk".data 10 (by decide) (by decide) (by decide)

/-- Counterexample to C1 as stated: the degenerate over-long text without
sentence punctuation is returned with a trailing `.` appended, not as the
original text; and the non-whitespace character `!` of a text is dropped
from every chunk (it is rewritten to `.`), so concatenating the chunks does
not reconstruct all non-whitespace content. -/
theorem chunk_text_content_claim_counterexample :
    chunk_text "abcdefghijk".data 10 ≠ ["abcdefghijk".data]
    ∧ '!' ∈ "ab!cdefghijk".data
    ∧ '!' ∉ (chunk_text "ab!cdefghijk".data 10).flatten := by
  refine ⟨by decide, by decide, by decide⟩

/-- C2: a text no longer than the max length is returned as the singleton
list holding the text itself, unmodified (`step2.py` lines 32–33). -/
theorem chunk_text_short_identity (text : List Char) (max_length : Nat)
    (h : text.length ≤ max_length) :
    chunk_text text max_length = [text] := by
  rw [chunk_text, if_pos h]

/-- Witness for C2: a text with trailing whitespace is returned verbatim. -/
theorem chunk_text_short_identity_witness :
    chunk_text "hello world  ".data 1000 = ["hello world  ".data] :=
  chunk_text_short_identity "hello world  ".data 1000 (by decide)

theorem flushChunks_bound {max_length : Nat} {chunks : List (List Char)}
    {current : List Char}
    (hchunks : ∀ ch ∈ chunks, ch.length ≤ max_length)
    (hcur : current = [] ∨ ∃ u, current = u ++ [' '] ∧ u ≠ [] ∧
      u.dropWhile isWS = u ∧ u.rdropWhile isWS = u ∧ u.length ≤ max_length) :
    ∀ ch ∈ flushChunks (chunks, current), ch.length ≤ max_length := by
  rcases hcur with h | ⟨u, hc, hne, hdw, hrdw, hul⟩
  · rw [flushChunks, if_neg (by simp [h])]
    exact hchunks
  · rw [flushChunks, if_pos (by rw [hc]; simp)]
    intro ch hch
    rcases List.mem_append.mp hch with h | h
    · exact hchunks ch h
    · have hch' : ch = pyStrip current := by simpa using h
      rw [hch', hc, pyStrip_append_space hdw hrdw]
      exact hul

theorem chunk_loop_bound (max_length : Nat) :
    ∀ (sentences : List (List Char)) (chunks : List (List Char)) (current : List Char),
    (∀ s ∈ sentences, (pyStrip s).length < max_length) →
    (∀ ch ∈ chunks, ch.length ≤ max_length) →
    (current = [] ∨ ∃ u, current = u ++ [' '] ∧ u ≠ [] ∧
      u.dropWhile isWS = u ∧ u.rdropWhile isWS = u ∧ u.length ≤ max_length) →
    ∀ ch ∈ flushChunks (sentences.foldl (chunkStep max_length) (chunks, current)),
      ch.length ≤ max_length := by
  intro sentences
  induction sentences with
  | nil =>
    intro chunks current _ hchunks hcur
    simpa using flushChunks_bound hchunks hcur
  | cons s rest ih =>
    intro chunks current hsen hchunks hcur
    rw [List.foldl_cons]
    have hs : (pyStrip s).length < max_length := hsen s (List.mem_cons_self s rest)
    have hrest : ∀ t ∈ rest, (pyStrip t).length < max_length :=
      fun t ht => hsen t (List.mem_cons_of_mem _ ht)
    by_cases h1 : pyStrip s = []
    · rw [show chunkStep max_length (chunks, current) s = (chunks, current) by
        rw [chunkStep, if_pos h1]]
      exact ih chunks current hrest hchunks hcur
    · have hfresh : ∃ u, pyStrip s ++ ['.', ' '] = u ++ [' '] ∧ u ≠ [] ∧
          u.dropWhile isWS = u ∧ u.rdropWhile isWS = u ∧ u.length ≤ max_length := by
        refine ⟨pyStrip s ++ ['.'], by simp, by simp, ?_, ?_, ?_⟩
        · exact dropWhile_append_of_fixed h1 (dropWhile_pyStrip s) ['.']
        · exact List.rdropWhile_concat_neg isWS (pyStrip s) '.' (by decide)
        · simp only [List.length_append, List.length_singleton]
          omega
      by_cases h2 : current.length + (pyStrip s).length < max_length
      · rw [show chunkStep max_length (chunks, current) s
            = (chunks, current ++ pyStrip s ++ ['.', ' ']) by
          rw [chunkStep, if_neg h1, if_pos h2]]
        apply ih _ _ hrest hchunks
        right
        rcases hcur with hc | ⟨u, hc, hne, hdw, hrdw, hul⟩
        · rw [hc, List.nil_append]
          exact hfresh
        · refine ⟨u ++ ' ' :: (pyStrip s ++ ['.']), ?_, by simp, ?_, ?_, ?_⟩
          · rw [hc]
            simp
          · exact dropWhile_append_of_fixed hne hdw _
          · rw [show u ++ ' ' :: (pyStrip s ++ ['.']) = (u ++ ' ' :: pyStrip s) ++ ['.'] by simp]
            exact List.rdropWhile_concat_neg isWS _ '.' (by decide)
          · have hlc : current.length = u.length + 1 := by rw [hc]; simp
            rw [hlc] at h2
            simp only [List.length_append, List.length_cons, List.length_nil]
            omega
      · rw [show chunkStep max_length (chunks, current) s
            = (flushChunks (chunks, current), pyStrip s ++ ['.', ' ']) by
          rw [chunkStep, if_neg h1, if_neg h2]]
        apply ih _ _ hrest (flushChunks_bound hchunks hcur)
        right
        exact hfresh

/-- C3 (amended): every returned chunk has length at most the max length,
provided every sentence (maximal run between sentence-terminal punctuation
marks), once stripped, is strictly shorter than the max length, and the
text has at least one non-whitespace, non-terminator character. Without
the first proviso an over-long single sentence becomes a chunk exceeding
the bound (see the counterexample), so the claimed invariant does not hold
unconditionally. -/
theorem chunk_text_length_bound (text : List Char) (max_length : Nat)
    (h1 : ∀ s ∈ pySplit isTerminator text, (pyStrip s).length < max_length)
    (h2 : ∃ c ∈ text, keepChar c = true) :
    ∀ ch ∈ chunk_text text max_length, ch.length ≤ max_length := by
  by_cases hlen : text.length ≤ max_length
  · rw [chunk_text, if_pos hlen]
    intro ch hch
    rw [List.mem_singleton.mp hch]
    exact hlen
  · rw [chunk_text, if_neg hlen]
    simp only []
    by_cases hch : flushChunks
        ((pySplit isTerminator text).foldl (chunkStep max_length) ([], [])) = []
    · exfalso
      have hfe := chunk_loop_filter max_length (pySplit isTerminator text) [] []
      rw [hch, filter_keepChar_flatten_pySplit] at hfe
      simp only [List.flatten_nil, List.filter_nil, List.nil_append] at hfe
      obtain ⟨c, hc, hk⟩ := h2
      have hmem : c ∈ text.filter keepChar := List.mem_filter.mpr ⟨hc, hk⟩
      rw [← hfe] at hmem
      exact (List.not_mem_nil c) hmem
    · rw [if_pos (by simp [hch])]
      exact chunk_loop_bound max_length _ [] [] h1 (by simp) (Or.inl rfl)

/-- Witness for C3 (amended): a 22-character text of four short sentences,
max length 10; the first returned chunk indeed fits the bound. -/
theorem chunk_text_length_bound_witness : ("aaaa.".data).length ≤ 10 :=
  chunk_text_length_bound "aaaa. bbbb. cccc. dddd".data 10 (by decide) (by decide)
    "aaaa.".data (by decide)

/-- Counterexample to C3 as stated: an 11-character text with no sentence
boundaries and max length 10 yields the single chunk `abcdefghijk.` of
length 12 > 10, so not every chunk's length is bounded by the max. -/
theorem chunk_text_length_claim_counterexample :
    "abcdefghijk.".data ∈ chunk_text "abcdefghijk".data 10
    ∧ 10 < ("abcdefghijk.".data).length := by
  refine ⟨by decide, by decide⟩

/-! ## Lemmas about the embedding generator -/

theorem firstSuccess_eq_none {V : Type} (attempt : String → Option V) :
    ∀ ms : List String, (∀ m ∈ ms, attempt m = none) →
    firstSuccess attempt ms = none := by
  intro ms
  induction ms with
  | nil => intro _; rfl
  | cons m ms ih =>
    intro h
    have hm : attempt m = none := h m (List.mem_cons_self m ms)
    have hred : firstSuccess attempt (m :: ms) = firstSuccess attempt ms := by
      rw [firstSuccess, hm]
    rw [hred]
    exact ih fun m' hm' => h m' (List.mem_cons_of_mem _ hm')

theorem getD_zipWith_add (v w : List ℚ) (k : Nat)
    (h1 : k < v.length) (h2 : k < w.length) :
    (List.zipWith (· + ·) v w).getD k 0 = v.getD k 0 + w.getD k 0 := by
  rw [List.getD_eq_getElem?_getD, List.getD_eq_getElem?_getD, List.getD_eq_getElem?_getD,
    List.getElem?_zipWith, List.getElem?_eq_getElem h1, List.getElem?_eq_getElem h2]
  rfl

theorem vecSum_length {n : Nat} :
    ∀ {vs : List (List ℚ)}, vs ≠ [] → (∀ v ∈ vs, v.length = n) →
    (vecSum vs).length = n := by
  intro vs
  induction vs with
  | nil => intro h; exact absurd rfl h
  | cons v rest ih =>
    intro _ hall
    cases rest with
    | nil => simpa using hall v (List.mem_cons_self v [])
    | cons w rest' =>
      rw [show vecSum (v :: w :: rest') = List.zipWith (· + ·) v (vecSum (w :: rest')) from rfl,
        List.length_zipWith, hall v (List.mem_cons_self v _),
        ih (by simp) fun u hu => hall u (List.mem_cons_of_mem _ hu)]
      simp

theorem vecSum_getD {n : Nat} (k : Nat) (hk : k < n) :
    ∀ {vs : List (List ℚ)}, (∀ v ∈ vs, v.length = n) →
    (vecSum vs).getD k 0 = (vs.map fun v => v.getD k 0).sum := by
  intro vs
  induction vs with
  | nil => intro _; simp [vecSum]
  | cons v rest ih =>
    intro hall
    cases rest with
    | nil => simp [vecSum]
    | cons w rest' =>
      have h1 : v.length = n := hall v (List.mem_cons_self v _)
      have h2 : (vecSum (w :: rest')).length = n :=
        vecSum_length (by simp) fun u hu => hall u (List.mem_cons_of_mem _ hu)
      rw [show vecSum (v :: w :: rest') = List.zipWith (· + ·) v (vecSum (w :: rest')) from rfl,
        getD_zipWith_add v _ k (by rw [h1]; exact hk) (by rw [h2]; exact hk),
        ih fun u hu => hall u (List.mem_cons_of_mem _ hu)]
      simp

theorem np_mean_axis0_getD {n : Nat} {vs : List (List ℚ)} (k : Nat)
    (hk : k < n) (hne : vs ≠ []) (hall : ∀ v ∈ vs, v.length = n) :
    (np_mean_axis0 vs).getD k 0 = (vs.map fun v => v.getD k 0).sum / (vs.length : ℚ) := by
  have hlen : (vecSum vs).length = n := vecSum_length hne hall
  have hk' : k < (vecSum vs).length := by rw [hlen]; exact hk
  rw [np_mean_axis0, List.getD_eq_getElem?_getD, List.getElem?_map,
    List.getElem?_eq_getElem hk']
  simp only [Option.map_some', Option.getD_some]
  congr 1
  rw [← vecSum_getD k hk hall, List.getD_eq_getElem?_getD,
    List.getElem?_eq_getElem hk', Option.getD_some]

theorem np_mean_axis0_singleton (v : List ℚ) : np_mean_axis0 [v] = v := by
  rw [np_mean_axis0, show vecSum [v] = v from rfl]
  simp

/-- C4: for a document whose embedding was produced, the aggregated vector
is the element-wise mean of the successful chunk vectors (each component is
their sum divided by their count); with exactly one successful chunk the
aggregate equals that chunk's vector exactly; a document with zero
successful chunks contributes nothing to the output batch. -/
theorem document_embedding_mean_aggregation :
    (∀ (attempt : List Char → String → Option (List ℚ)) (seq : MSequence)
        (d : DocumentEmbedding) (n : Nat),
      document_embedding attempt seq = some d →
      (∀ e ∈ d.chunks, e.embedding.length = n) →
      d.chunks ≠ [] ∧ ∀ k, k < n →
        d.embedding.getD k 0
          = (d.chunks.map fun e => e.embedding.getD k 0).sum / (d.chunks.length : ℚ))
    ∧ (∀ (attempt : List Char → String → Option (List ℚ)) (seq : MSequence)
        (ce : ChunkEmbedding),
      embedChunks attempt (chunk_text (combined_text seq) 1500) = [ce] →
      document_embedding attempt seq
        = some { pdf_name := seq.pdf_name
                 multimodal_content := seq.multimodal_content
                 embedding := ce.embedding
                 text := combined_text seq
                 chunks := [ce] })
    ∧ (∀ (attempt : List Char → String → Option (List ℚ)) (seq : MSequence),
      embedChunks attempt (chunk_text (combined_text seq) 1500) = [] →
      ∀ pre post, create_voyage_multimodal_embeddings attempt (pre ++ seq :: post)
        = create_voyage_multimodal_embeddings attempt (pre ++ post)) := by
  refine ⟨?_, ?_, ?_⟩
  · intro attempt seq d n hd hall
    rw [document_embedding] at hd
    by_cases hces : embedChunks attempt (chunk_text (combined_text seq) 1500) = []
    · rw [if_pos hces] at hd
      exact absurd hd (by simp)
    · rw [if_neg hces] at hd
      have hd' := Option.some.inj hd
      have hchunks : d.chunks = embedChunks attempt (chunk_text (combined_text seq) 1500) := by
        rw [← hd']
      have hemb : d.embedding
          = np_mean_axis0 (d.chunks.map (·.embedding)) := by
        rw [← hd']
      refine ⟨by rw [hchunks]; exact hces, fun k hk => ?_⟩
      have hne : d.chunks.map (·.embedding) ≠ [] := by
        simp only [ne_eq, List.map_eq_nil_iff]
        rw [hchunks]
        exact hces
      have hall' : ∀ v ∈ d.chunks.map (·.embedding), v.length = n := by
        intro v hv
        obtain ⟨e, he, hev⟩ := List.mem_map.mp hv
        rw [← hev]
        exact hall e he
      rw [hemb, np_mean_axis0_getD k hk hne hall']
      simp [List.map_map, Function.comp_def]
  · intro attempt seq ce h
    rw [document_embedding, if_neg (by rw [h]; simp)]
    rw [h]
    simp only [List.map_cons, List.map_nil]
    rw [np_mean_axis0_singleton]
  · intro attempt seq h pre post
    have hnone : document_embedding attempt seq = none := by
      rw [document_embedding, if_pos h]
    rw [create_voyage_multimodal_embeddings, create_voyage_multimodal_embeddings,
      List.filterMap_append, List.filterMap_append, List.filterMap_cons, hnone]

/-- Witness for C4: a one-chunk document whose single successful chunk
vector is the aggregate verbatim. -/
theorem document_embedding_mean_aggregation_witness :
    document_embedding (fun _ m => if m = "voyage-large-2" then some [(1 : ℚ), 2] else none)
        { pdf_name := "doc", multimodal_content := [SegItem.text "hi".data] }
      = some { pdf_name := "doc"
               multimodal_content := [SegItem.text "hi".data]
               embedding := [(1 : ℚ), 2]
               text := combined_text
                 { pdf_name := "doc", multimodal_content := [SegItem.text "hi".data] }
               chunks := [{ chunk_index := 0, text := "hi".data,
                            embedding := [(1 : ℚ), 2], model_used := "voyage-large-2" }] } :=
  document_embedding_mean_aggregation.2.1
    (fun _ m => if m = "voyage-large-2" then some [(1 : ℚ), 2] else none)
    { pdf_name := "doc", multimodal_content := [SegItem.text "hi".data] }
    { chunk_index := 0, text := "hi".data, embedding := [(1 : ℚ), 2],
      model_used := "voyage-large-2" }
    (by decide)

/-- C5: per-chunk model fallback. (a) A successful first candidate wins
immediately, whatever comes later in the list; (b) a failing candidate
hands over to the rest of the list; (c) a chunk for which every candidate
fails contributes no entry; (d) any other chunk whose fallback succeeds is
still embedded — one failed chunk is not fatal to the rest. -/
theorem embedding_model_fallback :
    (∀ (attempt : String → Option (List ℚ)) (m : String) (ms : List String) (v : List ℚ),
      attempt m = some v → firstSuccess attempt (m :: ms) = some (v, m))
    ∧ (∀ (attempt : String → Option (List ℚ)) (m : String) (ms : List String),
      attempt m = none → firstSuccess attempt (m :: ms) = firstSuccess attempt ms)
    ∧ (∀ (attempt : List Char → String → Option (List ℚ)) (chunks : List (List Char))
        (j : Nat) (c : List Char),
      chunks[j]? = some c → (∀ m ∈ models_to_try, attempt c m = none) →
      ∀ e ∈ embedChunks attempt chunks, e.chunk_index ≠ j)
    ∧ (∀ (attempt : List Char → String → Option (List ℚ)) (chunks : List (List Char))
        (i : Nat) (c : List Char) (v : List ℚ) (m : String),
      chunks[i]? = some c → firstSuccess (attempt c) models_to_try = some (v, m) →
      ({ chunk_index := i, text := c, embedding := v, model_used := m } : ChunkEmbedding)
        ∈ embedChunks attempt chunks) := by
  refine ⟨?_, ?_, ?_, ?_⟩
  · intro attempt m ms v h
    rw [firstSuccess, h]
  · intro attempt m ms h
    rw [firstSuccess, h]
  · intro attempt chunks j c hget hall e he
    obtain ⟨jc, hmem, hf⟩ := List.mem_filterMap.mp he
    obtain ⟨vm, hvm, hrec⟩ := Option.map_eq_some'.mp hf
    intro hje
    have hj : jc.1 = j := by rw [← hrec] at hje; exact hje
    have hc : chunks[j]? = some jc.2 := by
      rw [← hj]
      exact List.mem_enum_iff_getElem?.mp hmem
    have hcc : jc.2 = c := by
      rw [hget] at hc
      exact (Option.some.inj hc).symm
    rw [hcc, firstSuccess_eq_none _ _ hall] at hvm
    exact Option.noConfusion hvm
  · intro attempt chunks i c v m hget hfs
    refine List.mem_filterMap.mpr ⟨(i, c), List.mem_enum_iff_getElem?.mpr hget, ?_⟩
    rw [hfs]
    rfl

/-- Witness for C5: the first candidate fails, the second succeeds, and the
chunk's entry records the second model's vector and name. -/
theorem embedding_model_fallback_witness :
    ({ chunk_index := 0, text := "x".data, embedding := [(5 : ℚ)],
       model_used := "voyage-02" } : ChunkEmbedding)
      ∈ embedChunks (fun _ m => if m = "voyage-02" then some [(5 : ℚ)] else none)
          ["x".data] :=
  embedding_model_fallback.2.2.2 _ _ 0 "x".data [(5 : ℚ)] "voyage-02"
    (by decide) (by decide)

/-! ## Lemmas about the sequence builder -/

theorem length_filterMap_of_isSome {α β : Type} (f : α → Option β) :
    ∀ l : List α, (∀ a ∈ l, (f a).isSome) → (l.filterMap f).length = l.length := by
  intro l
  induction l with
  | nil => intro _; rfl
  | cons a rest ih =>
    intro h
    rw [List.filterMap_cons]
    cases hfa : f a with
    | none =>
      have := h a (List.mem_cons_self a rest)
      rw [hfa] at this
      exact absurd this (by simp)
    | some b =>
      simp only [List.length_cons]
      rw [ih fun x hx => h x (List.mem_cons_of_mem _ hx)]

theorem build_segments_images (md : List Char) (assets : List ImageAsset)
    (caps : List (String × List Char)) :
    ∀ (ms : List (Nat × Nat)) (i pos : Nat),
    (build_segments md assets caps ms i pos).filter is_image_seg
      = ((assets.drop i).take ms.length).filterMap fun a =>
          a.data.map fun d =>
            SegItem.image (data_url d) a.name (caption_map_get caps a.name) := by
  intro ms
  induction ms with
  | nil =>
    intro i pos
    rw [build_segments]
    by_cases h : pyStrip (md.drop pos) ≠ [] <;> simp [h, is_image_seg]
  | cons se rest ih =>
    obtain ⟨s, e⟩ := se
    intro i pos
    rw [build_segments, List.filter_append, List.filter_append]
    have htext : (if pyStrip ((md.drop pos).take (s - pos)) ≠ [] then
          [SegItem.text (pyStrip ((md.drop pos).take (s - pos)))]
        else []).filter is_image_seg = [] := by
      by_cases h : pyStrip ((md.drop pos).take (s - pos)) ≠ [] <;> simp [h, is_image_seg]
    rw [htext]
    cases hai : assets[i]? with
    | none =>
      have hlen : assets.length ≤ i := List.getElem?_eq_none_iff.mp hai
      have hd1 : assets.drop i = [] := List.drop_eq_nil_of_le hlen
      have hd2 : assets.drop (i + 1) = [] := List.drop_eq_nil_of_le (by omega)
      rw [ih (i + 1) e, hd1, hd2]
      simp [hai]
    | some a =>
      obtain ⟨hlt, hget⟩ := List.getElem?_eq_some_iff.mp hai
      have hdrop : assets.drop i = a :: assets.drop (i + 1) := by
        rw [← List.getElem_cons_drop assets i hlt, hget]
      rw [ih (i + 1) e, hdrop]
      simp only [List.length_cons]
      rw [List.take_succ_cons, List.filterMap_cons]
      cases had : a.data with
      | some d => simp [hai, had, is_image_seg]
      | none => simp [hai, had]

theorem build_segments_texts (md : List Char) (assets : List ImageAsset)
    (caps caps' : List (String × List Char)) :
    ∀ (ms : List (Nat × Nat)) (i i' pos : Nat),
    (build_segments md assets caps ms i pos).filter (fun x => !is_image_seg x)
      = (build_segments md [] caps' ms i' pos).filter (fun x => !is_image_seg x) := by
  intro ms
  induction ms with
  | nil => intro i i' pos; rfl
  | cons se rest ih =>
    obtain ⟨s, e⟩ := se
    intro i i' pos
    rw [build_segments, build_segments, List.filter_append, List.filter_append,
      List.filter_append, List.filter_append]
    have himg : ∀ (l : List ImageAsset) (j : Nat) (cp : List (String × List Char)),
        ((match l[j]? with
          | some asset =>
            match asset.data with
            | some d =>
              [SegItem.image (data_url d) asset.name (caption_map_get cp asset.name)]
            | none => []
          | none => []) : List SegItem).filter (fun x => !is_image_seg x) = [] := by
      intro l j cp
      cases l[j]? with
      | none => rfl
      | some asset =>
        cases had : asset.data with
        | none => simp [had]
        | some d => simp [had, is_image_seg]
    rw [himg assets i caps, himg [] i' caps', ih (i + 1) (i' + 1) e]

/-- C6: positional marker-to-asset interleaving. (a) The Image segments
produced for a document are exactly those obtained from the first N assets
(N = number of markers) in order, each carrying its positionally matched
asset's data, name and caption; (b) with at least as many loadable assets
as markers, exactly N Image segments are produced; (c) with fewer assets
than markers the excess markers are skipped — every loadable asset yields
its segment, nothing fails; (d) the Text segments do not depend on the
assets at all (they are the same as with no assets). -/
theorem create_multimodal_sequences_interleaving :
    (∀ (md : List Char) (assets : List ImageAsset) (caps : List (String × List Char)),
      (create_multimodal_sequences_doc md assets caps).filter is_image_seg
        = (assets.take (find_markers image_marker md).length).filterMap fun a =>
            a.data.map fun d =>
              SegItem.image (data_url d) a.name (caption_map_get caps a.name))
    ∧ (∀ (md : List Char) (assets : List ImageAsset) (caps : List (String × List Char)),
      (∀ a ∈ assets, a.data.isSome) →
      (find_markers image_marker md).length ≤ assets.length →
      ((create_multimodal_sequences_doc md assets caps).filter is_image_seg).length
        = (find_markers image_marker md).length)
    ∧ (∀ (md : List Char) (assets : List ImageAsset) (caps : List (String × List Char)),
      (∀ a ∈ assets, a.data.isSome) →
      assets.length < (find_markers image_marker md).length →
      ((create_multimodal_sequences_doc md assets caps).filter is_image_seg).length
        = assets.length)
    ∧ (∀ (md : List Char) (assets : List ImageAsset)
        (caps caps' : List (String × List Char)),
      (create_multimodal_sequences_doc md assets caps).filter (fun x => !is_image_seg x)
        = (create_multimodal_sequences_doc md [] caps').filter (fun x => !is_image_seg x)) := by
  have hmain : ∀ (md : List Char) (assets : List ImageAsset)
      (caps : List (String × List Char)),
      (create_multimodal_sequences_doc md assets caps).filter is_image_seg
        = (assets.take (find_markers image_marker md).length).filterMap fun a =>
            a.data.map fun d =>
              SegItem.image (data_url d) a.name (caption_map_get caps a.name) := by
    intro md assets caps
    rw [create_multimodal_sequences_doc]
    by_cases h : find_markers image_marker md = []
    · rw [if_pos h, h]
      simp [is_image_seg]
    · rw [if_neg h, build_segments_images md assets caps _ 0 0, List.drop_zero]
  refine ⟨hmain, ?_, ?_, ?_⟩
  · intro md assets caps hsome hle
    rw [hmain md assets caps,
      length_filterMap_of_isSome _ _
        (fun a ha => by simp [hsome a (List.take_subset _ _ ha)]),
      List.length_take]
    omega
  · intro md assets caps hsome hlt
    rw [hmain md assets caps, List.take_of_length_le (by omega),
      length_filterMap_of_isSome _ _ (fun a ha => by simp [hsome a ha])]
  · intro md assets caps caps'
    rw [create_multimodal_sequences_doc, create_multimodal_sequences_doc]
    by_cases h : find_markers image_marker md = []
    · rw [if_pos h, if_pos h]
    · rw [if_neg h, if_neg h]
      exact build_segments_texts md assets caps caps' _ 0 0 0

/-- Witness for C6: two markers, two loadable assets — exactly two Image
segments are produced. -/
theorem create_multimodal_sequences_interleaving_witness :
    ((create_multimodal_sequences_doc "a<!-- image -->b<!-- image -->c".data
        [{ name := "i1.png", data := some "X".data },
         { name := "i2.png", data := some "Y".data }] []).filter is_image_seg).length
      = (find_markers image_marker "a<!-- image -->b<!-- image -->c".data).length :=
  create_multimodal_sequences_interleaving.2.1
    "a<!-- image -->b<!-- image -->c".data
    [{ name := "i1.png", data := some "X".data },
     { name := "i2.png", data := some "Y".data }] []
    (by decide) (by decide)

/-! ## Vector index dimensionality (C7) -/

/-- C7 (amended): `step2.py`'s save path declares the collection
dimensionality as the first ingested embedding's length, but `v_embed.py`'s
save path declares the constant 1024 regardless of the ingested vectors;
in either path, upserting a point whose vector length differs from the
declared dimensionality is rejected by the index service (modelled from the
spec) — the write fails closed. -/
theorem vector_index_dimensionality :
    (∀ (st : QdrantState PointStruct) (e : DocumentEmbedding)
        (rest : List DocumentEmbedding) (name : String),
      (step2_save_to_qdrant st (e :: rest) name).1 = e.embedding.length)
    ∧ (∀ (st : QdrantState VPointStruct) (embs : List VDocumentEmbedding) (name : String),
      (v_embed_save_to_qdrant st embs name).1 = 1024)
    ∧ (∀ {P : Type} (vector_of : P → List ℚ) (st : QdrantState P) (name : String)
        (pts : List P) (dim : Nat) (stored : List P) (p : P),
      st.collections.find? (fun kv => kv.1 = name) = some (name, dim, stored) →
      p ∈ pts → (vector_of p).length ≠ dim →
      qdrant_upsert vector_of st name pts = .error "vector dimension mismatch") := by
  refine ⟨fun _ _ _ _ => rfl, fun _ _ _ => rfl, ?_⟩
  intro P vector_of st name pts dim stored p hfind hp hne
  rw [qdrant_upsert, hfind]
  have hall : (pts.all fun q => decide ((vector_of q).length = dim)) = false := by
    rw [List.all_eq_false]
    exact ⟨p, hp, by simpa using hne⟩
  simp [hall]

/-- Witness for C7 (amended): a fresh collection of dimensionality 2
rejects the upsert of a 1-dimensional point. -/
theorem vector_index_dimensionality_witness :
    qdrant_upsert (fun v : List ℚ => v)
        { collections := [("c", 2, ([] : List (List ℚ)))] } "c" [[(3 : ℚ)]]
      = .error "vector dimension mismatch" :=
  vector_index_dimensionality.2.2 (fun v : List ℚ => v)
    { collections := [("c", 2, ([] : List (List ℚ)))] } "c" [[(3 : ℚ)]] 2 []
    [(3 : ℚ)] (by decide) (by decide) (by decide)

/-- Counterexample to C7 as stated: `v_embed.py` declares dimensionality
1024 whatever the first ingested vector's length is — here a 1-dimensional
first vector — so the declared dimensionality does not equal the first
ingested vector's length. -/
theorem vector_index_dimensionality_counterexample :
    (v_embed_save_to_qdrant { collections := [] }
        [{ pdf_name := "doc", multimodal_content := [], embedding := [(3 : ℚ)] }]).1
      = 1024
    ∧ ([(3 : ℚ)] : List ℚ).length = 1
    ∧ (1024 : Nat) ≠ 1 :=
  ⟨rfl, rfl, by decide⟩

/-! ## Workflow retrieval and ad hoc search (C9) -/

/-- C9 (amended): in the workflow's Retrieve state the question string is
passed verbatim (not normalized, with no model-fallback embedding inside
this repository's code) to the dense retriever, which queries the vector
store with fixed top-K 10; normalization and the prioritized fallback-list
embedding are applied only by the ad hoc search path
(`search_similar_documents`, default top-K 5), which searches with the
first successful candidate's vector and returns `[]` when every candidate
fails. -/
theorem retrieve_and_adhoc_search_pipeline :
    (∀ (vector_store : List Char → Nat → List (List Char)) (state : RAGState),
      retrieve_documents (create_retriever_from_existing_data vector_store) state
        = { question := state.question
            documents := vector_store state.question 10
            answer := [] })
    ∧ (∀ {Hit : Type} (attempt : List Char → String → Option (List ℚ))
        (qdrant_search : List ℚ → Nat → List Hit) (q : List Char) (limit : Nat)
        (v : List ℚ) (m : String),
      firstSuccess (attempt (preprocess_korean_text q)) models_to_try = some (v, m) →
      search_similar_documents attempt qdrant_search q limit = qdrant_search v limit)
    ∧ (∀ {Hit : Type} (attempt : List Char → String → Option (List ℚ))
        (qdrant_search : List ℚ → Nat → List Hit) (q : List Char) (limit : Nat),
      firstSuccess (attempt (preprocess_korean_text q)) models_to_try = none →
      search_similar_documents attempt qdrant_search q limit = []) := by
  refine ⟨fun _ _ => rfl, ?_, ?_⟩
  · intro Hit attempt qdrant_search q limit v m h
    rw [search_similar_documents, h]
  · intro Hit attempt qdrant_search q limit h
    rw [search_similar_documents, h]

/-- Witness for C9 (amended): the ad hoc search embeds the normalized query
with the first candidate model and hands that vector, with the default
limit 5, to the index search. -/
theorem retrieve_and_adhoc_search_pipeline_witness :
    search_similar_documents
        (fun _ m => if m = "voyage-large-2" then some [(2 : ℚ)] else none)
        (fun v limit => [(v, limit)]) "farm temperature".data 5
      = [([(2 : ℚ)], 5)] :=
  retrieve_and_adhoc_search_pipeline.2.1
    (fun _ m => if m = "voyage-large-2" then some [(2 : ℚ)] else none)
    (fun v limit => [(v, limit)]) "farm temperature".data 5 [(2 : ℚ)]
    "voyage-large-2" (by decide)

/-- Counterexample to C9 as stated: the Retrieve state does not normalize
the question. For a store that recognises only the raw question
`hello, world!` (which normalization would rewrite), retrieval returns the
raw-question hits, while the same retriever applied to the normalized
question returns nothing — so the question was embedded un-normalized. -/
theorem retrieve_not_normalized_counterexample :
    preprocess_korean_text "hello, world!".data ≠ "hello, world!".data
    ∧ (retrieve_documents
        (create_retriever_from_existing_data
          (fun q _ => if q = "hello, world!".data then ["doc1".data] else []))
        { question := "hello, world!".data, documents := [], answer := [] }).documents
      = ["doc1".data]
    ∧ create_retriever_from_existing_data
        (fun q _ => if q = "hello, world!".data then ["doc1".data] else [])
        (preprocess_korean_text "hello, world!".data)
      = [] :=
  ⟨by decide, by decide, by decide⟩

/-! ## Interactive loop (C8, C10) -/

/-- C8: the interactive loop exits (cleanly, with the farewell as its last
output) exactly when the input schedule contains a termination token
(`quit`, `exit`, `종료` — case-insensitively, after stripping) or an
interrupt; an exception raised while answering one question is reported
inline and the loop continues with the subsequent events. -/
theorem interactive_qa_loop_behavior :
    (∀ (rag_app : List Char → Except (List Char) RAGState) (events : List InputEvent),
      (interactive_qa rag_app events).2 = true
        ↔ ∃ e ∈ events, isTerminationEvent e = true)
    ∧ (∀ (rag_app : List Char → Except (List Char) RAGState) (events : List InputEvent),
      (interactive_qa rag_app events).2 = true →
      (interactive_qa rag_app events).1.getLast? = some .goodbye)
    ∧ (∀ (rag_app : List Char → Except (List Char) RAGState) (s : List Char)
        (rest : List InputEvent) (msg : List Char),
      isTerminationEvent (.line s) = false → pyStrip s ≠ [] →
      rag_app (pyStrip s) = .error msg →
      interactive_qa rag_app (.line s :: rest)
        = (.error_report msg :: (interactive_qa rag_app rest).1,
            (interactive_qa rag_app rest).2)) := by
  refine ⟨?_, ?_, ?_⟩
  · intro rag_app events
    induction events with
    | nil => simp [interactive_qa]
    | cons e rest ih =>
      cases e with
      | interrupt => simp [interactive_qa, isTerminationEvent]
      | line s =>
        rw [interactive_qa]
        by_cases hmem : pyLower (pyStrip s) ∈ termination_tokens
        · rw [if_pos hmem]
          simp [isTerminationEvent, hmem]
        · rw [if_neg hmem]
          by_cases hempty : pyStrip s = []
          · rw [if_pos hempty, ih]
            simp [isTerminationEvent, hmem]
          · rw [if_neg hempty]
            cases hr : rag_app (pyStrip s) with
            | ok r =>
              show (interactive_qa rag_app rest).2 = true ↔ _
              rw [ih]
              simp [isTerminationEvent, hmem]
            | error msg =>
              show (interactive_qa rag_app rest).2 = true ↔ _
              rw [ih]
              simp [isTerminationEvent, hmem]
  · intro rag_app events
    induction events with
    | nil => simp [interactive_qa]
    | cons e rest ih =>
      cases e with
      | interrupt => intro _; rfl
      | line s =>
        rw [interactive_qa]
        by_cases hmem : pyLower (pyStrip s) ∈ termination_tokens
        · rw [if_pos hmem]
          intro _
          rfl
        · rw [if_neg hmem]
          by_cases hempty : pyStrip s = []
          · rw [if_pos hempty]
            exact ih
          · rw [if_neg hempty]
            cases hr : rag_app (pyStrip s) with
            | ok r =>
              show (interactive_qa rag_app rest).2 = true →
                (QAOutput.answer r.answer r.documents.length
                  :: (interactive_qa rag_app rest).1).getLast? = some QAOutput.goodbye
              intro h2
              have hlast := ih h2
              cases hrest : (interactive_qa rag_app rest).1 with
              | nil => rw [hrest] at hlast; exact absurd hlast (by simp)
              | cons x xs =>
                rw [hrest] at hlast
                rw [List.getLast?_cons_cons]
                exact hlast
            | error msg =>
              show (interactive_qa rag_app rest).2 = true →
                (QAOutput.error_report msg
                  :: (interactive_qa rag_app rest).1).getLast? = some QAOutput.goodbye
              intro h2
              have hlast := ih h2
              cases hrest : (interactive_qa rag_app rest).1 with
              | nil => rw [hrest] at hlast; exact absurd hlast (by simp)
              | cons x xs =>
                rw [hrest] at hlast
                rw [List.getLast?_cons_cons]
                exact hlast
  · intro rag_app s rest msg hterm hempty herr
    have hmem : ¬ pyLower (pyStrip s) ∈ termination_tokens := by
      simpa [isTerminationEvent] using hterm
    rw [interactive_qa, if_neg hmem, if_neg hempty, herr]

/-- Witness for C8: a generation failure on the one question is reported
and the loop state equals continuing with the empty remainder. -/
theorem interactive_qa_loop_behavior_witness :
    interactive_qa (fun _ => Except.error "boom".data) [InputEvent.line "hi".data]
      = (.error_report "boom".data
            :: (interactive_qa (fun _ => Except.error "boom".data) []).1,
          (interactive_qa (fun _ => Except.error "boom".data) []).2) :=
  interactive_qa_loop_behavior.2.2 (fun _ => Except.error "boom".data)
    "hi".data [] "boom".data (by decide) (by decide) rfl

/-- C10: a line that strips to empty is skipped entirely — the loop's
outputs and continuation are exactly those of the remaining input; in
particular no retrieval/generation call is consulted and nothing is
printed for it. -/
theorem interactive_qa_blank_skip
    (rag_app : List Char → Except (List Char) RAGState)
    (s : List Char) (rest : List InputEvent) (h : pyStrip s = []) :
    interactive_qa rag_app (.line s :: rest) = interactive_qa rag_app rest := by
  have hmem : ¬ pyLower (pyStrip s) ∈ termination_tokens := by
    rw [h]
    decide
  rw [interactive_qa, if_neg hmem, if_pos h]

/-- Witness for C10: a whitespace-only line is skipped. -/
theorem interactive_qa_blank_skip_witness :
    interactive_qa (fun _ => Except.error "boom".data) [InputEvent.line "   ".data]
      = interactive_qa (fun _ => Except.error "boom".data) [] :=
  interactive_qa_blank_skip (fun _ => Except.error "boom".data) "   ".data []
    (by decide)

end Rag
